import Mathlib

/-!
Verification of the Quoridor rules engine (`Game` class of `main.py`).

The engine is embedded shallowly: `Position` mirrors the `Position`
NamedTuple, `Game` mirrors the mutable `Game` object (two players, as
built by `Game.__init__`), and the methods `naive_neighbors`, `can_exit`,
`add_wall`, `move_to`, `next_turn`, `has_win` are translated as pure
functions.  The mutating Python methods return `Optional[str]` (an error
message, or `None` on success) while updating `self` in place; here they
return the pair `(Option String) × Game` of the message and the state
after the call.  The DFS of `can_exit` uses a fuel parameter for
termination; fuel `1000` strictly dominates the measure of the search
(at most `5 * 81 + 1 = 406`), which is proved below, so the fuel never
runs out on the calls the engine makes.
-/

structure Position where
  row : Int
  col : Int
deriving DecidableEq, Repr

def Position.in_grid (p : Position) : Bool :=
  decide (0 ≤ p.row ∧ p.row < 9 ∧ 0 ≤ p.col ∧ p.col < 9)

instance : Add Position := ⟨fun a b => ⟨a.row + b.row, a.col + b.col⟩⟩

instance : Sub Position := ⟨fun a b => ⟨a.row - b.row, a.col - b.col⟩⟩

instance : HMul Position Int Position := ⟨fun a n => ⟨a.row * n, a.col * n⟩⟩

def Position.fdiv (p : Position) (n : Int) : Position := ⟨p.row.fdiv n, p.col.fdiv n⟩

def Position.manhattan (a b : Position) : Nat :=
  (a.row - b.row).natAbs + (a.col - b.col).natAbs

/-- `MOVES`: North, South, West, East. -/
def MOVES : List Position := [⟨-1, 0⟩, ⟨1, 0⟩, ⟨0, -1⟩, ⟨0, 1⟩]

def PLAYER_STARTS : Fin 2 → Position := fun i => if i = 0 then ⟨8, 4⟩ else ⟨0, 4⟩

/-- `PLAYER_HAS_WIN`: player 0 wins on row 0, player 1 on row 8. -/
def PLAYER_HAS_WIN (i : Fin 2) (p : Position) : Bool :=
  if i = 0 then decide (p.row = 0) else decide (p.row = 8)

/-- Wall orientation, the `hv` argument of `add_wall` (`'h'` or `'v'`). -/
inductive HV
  | h
  | v
deriving DecidableEq, Repr

/-- Game state: the fields of the Python `Game` object with
`nb_players = 2` (as set by `__init__`).  `pos0`/`pos1` are the two
entries of `players_positions`, `count0`/`count1` the two entries of
`count_walls`. -/
structure Game where
  pos0 : Position
  pos1 : Position
  wall_parts : List Position
  index : Fin 2
  count0 : Int
  count1 : Int
deriving DecidableEq, Repr

def Game.ERROR_BLOCK_HIM : String := "You can not entirely block another player."

def Game.ERROR_BLOCK_YOU : String := "You can not entirely block yourself."

def Game.ERROR_FAR_AWAY : String := "You can not go that far."

def Game.ERROR_GHOST : String := "You can not go through a wall."

/-- `ERROR_JUMP % s1 % s2`: the two-stage `%`-formatting of
`'To jump %s an enemy, you need %%s.'`. -/
def Game.ERROR_JUMP (s1 s2 : String) : String :=
  ("To jump ") ++ s1 ++ (" an enemy, you need ") ++ s2 ++ (".")

def Game.ERROR_NO_WALL : String := "You can not put up a wall you do not have."

def Game.ERROR_NOTHING : String := "You must move or add a wall (if you have)."

def Game.ERROR_WALL_INTERSECTION : String := "You can not create a wall twice."

/-- `Game.__init__`: positions from `PLAYER_STARTS`, empty lattice,
index 0, `20 // 2 = 10` walls each. -/
def Game.init : Game :=
  { pos0 := ⟨8, 4⟩, pos1 := ⟨0, 4⟩, wall_parts := [], index := 0
    count0 := 10, count1 := 10 }

/-- `players_positions[i]`. -/
def Game.posOf (g : Game) (i : Fin 2) : Position := if i = 0 then g.pos0 else g.pos1

/-- `count_walls[i]`. -/
def Game.countOf (g : Game) (i : Fin 2) : Int := if i = 0 then g.count0 else g.count1

/-- The list `players_positions` (used by the `in`/comprehension checks
of `move_to`). -/
def Game.players_positions (g : Game) : List Position := [g.pos0, g.pos1]

/-- `players_positions[i] = p`. -/
def Game.setPos (g : Game) (i : Fin 2) (p : Position) : Game :=
  if i = 0 then { g with pos0 := p } else { g with pos1 := p }

/-- `count_walls[i] -= 1`. -/
def Game.decCount (g : Game) (i : Fin 2) : Game :=
  if i = 0 then { g with count0 := g.count0 - 1 } else { g with count1 := g.count1 - 1 }

/-- `has_win(index, position)` with both arguments explicit. -/
def Game.has_win (_ : Game) (i : Fin 2) (p : Position) : Bool := PLAYER_HAS_WIN i p

/-- `has_win()` with the default arguments (current player, their
position). -/
def Game.has_winD (g : Game) : Bool := PLAYER_HAS_WIN g.index (g.posOf g.index)

/-- `next_turn`: advance the index cyclically unless the current player
has won. -/
def Game.next_turn (g : Game) : Game :=
  if g.has_winD then g else { g with index := g.index + 1 }

/-- `naive_neighbors(position, wall_parts)`: for each of the four moves,
the neighbor is yielded iff it is in the grid and the fine midpoint
`position + neighbor` is not a wall part. -/
def naive_neighbors (position : Position) (wall_parts : List Position) : List Position :=
  MOVES.filterMap fun move =>
    let neighbor := position + move
    if neighbor.in_grid = true ∧ position + neighbor ∉ wall_parts then some neighbor
    else none

/-- The loop body of `can_exit`'s DFS: `stack`/`visited` are the Python
locals (head of the list = top of the Python stack).  The `fuel`
argument only forces termination; it is never exhausted when the
initial fuel dominates the measure `dfsMeasure` (proved below). -/
def dfsAux (i : Fin 2) (L : List Position) :
    Nat → List Position → List Position → Bool
  | 0, _, _ => false
  | fuel + 1, stack, visited =>
    match stack with
    | [] => false
    | position :: rest =>
      if position ∈ visited then dfsAux i L fuel rest visited
      else
        let ns := naive_neighbors position L
        if ns.any (fun n => PLAYER_HAS_WIN i n) then true
        else
          dfsAux i L fuel
            (ns.filter (fun n => decide (n ∉ position :: visited)) ++ rest)
            (position :: visited)

/-- `can_exit(index, wall_parts)`: DFS from the player's position. -/
def Game.can_exit (g : Game) (index : Fin 2) (wall_parts : List Position) : Bool :=
  dfsAux index wall_parts 1000 [g.posOf index] []

/-- The pair `(move, other_move) = (Position(0,1), Position(1,0))[::x]`
with `x = -1` for `'v'` and `x = 1` for `'h'`: slicing with step `-1`
reverses the pair. -/
def wallMoves : HV → Position × Position
  | HV.h => (⟨0, 1⟩, ⟨1, 0⟩)
  | HV.v => (⟨1, 0⟩, ⟨0, 1⟩)

/-- `{position * 2 + other_move + move * n for n in range(3)}`. -/
def wall_parts_of (position : Position) (hv : HV) : List Position :=
  (List.range 3).map fun n =>
    position * (2 : Int) + (wallMoves hv).2 + (wallMoves hv).1 * (Int.ofNat n)

/-- `add_wall(position, hv)`. -/
def Game.add_wall (g : Game) (position : Position) (hv : HV) : Option String × Game :=
  if g.countOf g.index = 0 then (some Game.ERROR_NO_WALL, g)
  else
    let new_parts := wall_parts_of position hv
    if new_parts.any (fun p => decide (p ∈ g.wall_parts)) then
      (some Game.ERROR_WALL_INTERSECTION, g)
    else
      let candidate := new_parts ++ g.wall_parts
      if ¬g.can_exit 0 candidate = true then
        (some (if (0 : Fin 2) = g.index then Game.ERROR_BLOCK_YOU else Game.ERROR_BLOCK_HIM), g)
      else if ¬g.can_exit 1 candidate = true then
        (some (if (1 : Fin 2) = g.index then Game.ERROR_BLOCK_YOU else Game.ERROR_BLOCK_HIM), g)
      else
        (none, Game.next_turn (Game.decCount { g with wall_parts := candidate } g.index))

/-- The straight (`0 in diff`) arm of the distance-2 case of `move_to`
(`msg = ERROR_JUMP % 'over'`). -/
def Game.jump_over (g : Game) (destination diff : Position) : Option String × Game :=
  let current_position := g.posOf g.index
  let enemy := current_position + diff.fdiv 2
  if enemy ∉ g.players_positions then (some Game.ERROR_FAR_AWAY, g)
  else if enemy ∉ naive_neighbors current_position g.wall_parts then
    (some (Game.ERROR_JUMP ("over") ("no wall\nbetween you and him/her")), g)
  else if destination ∉ naive_neighbors enemy g.wall_parts then
    (some (Game.ERROR_JUMP ("over") ("no wall behind him/her")), g)
  else (none, (g.setPos g.index destination).next_turn)

/-- The first two comprehension filters of the diagonal arm: enemies
adjacent to the current position and adjacent to the destination. -/
def Game.diag_enemies2 (g : Game) (destination : Position) : List Position :=
  ((g.players_positions.filter fun e =>
      decide ((g.posOf g.index).manhattan e = 1)).filter fun e =>
    decide (e.manhattan destination = 1))

/-- The third comprehension filter: enemies in `close`, the open
neighborhood of the current position. -/
def Game.diag_enemies3 (g : Game) (destination : Position) : List Position :=
  (g.diag_enemies2 destination).filter fun e =>
    decide (e ∈ naive_neighbors (g.posOf g.index) g.wall_parts)

/-- The fourth comprehension filter: the cell behind the enemy is
off-grid or walled off from the enemy. -/
def Game.diag_enemies4 (g : Game) (destination : Position) : List Position :=
  (g.diag_enemies3 destination).filter fun e =>
    decide (¬((g.posOf g.index) + (e - g.posOf g.index) * (2 : Int)).in_grid = true ∨
      (g.posOf g.index) + (e - g.posOf g.index) * (2 : Int) ∉
        naive_neighbors e g.wall_parts)

/-- The fifth comprehension filter: the destination is an open neighbor
of the enemy. -/
def Game.diag_enemies5 (g : Game) (destination : Position) : List Position :=
  (g.diag_enemies4 destination).filter fun e =>
    decide (destination ∈ naive_neighbors e g.wall_parts)

/-- The diagonal arm of the distance-2 case of `move_to`
(`msg = ERROR_JUMP % 'beside'`).  The Python code tests each
comprehension for emptiness in turn and reports the first failure. -/
def Game.jump_beside (g : Game) (destination : Position) : Option String × Game :=
  if g.players_positions.filter
      (fun e => decide ((g.posOf g.index).manhattan e = 1)) = [] then
    (some Game.ERROR_FAR_AWAY, g)
  else if g.diag_enemies2 destination = [] then (some Game.ERROR_FAR_AWAY, g)
  else if g.diag_enemies3 destination = [] then
    (some (Game.ERROR_JUMP ("beside") ("no wall\nbetween you and him/her")), g)
  else if g.diag_enemies4 destination = [] then
    (some (Game.ERROR_JUMP ("beside") ("a wall behind him/her")), g)
  else if g.diag_enemies5 destination = [] then
    (some (Game.ERROR_JUMP ("beside") ("no wall\nbetween him/her and the destination")), g)
  else (none, (g.setPos g.index destination).next_turn)

/-- `move_to(destination)`.  The sequential `if distance == …` tests of
the Python body are rendered as one chain (the tests are mutually
exclusive). -/
def Game.move_to (g : Game) (destination : Position) : Option String × Game :=
  let current_position := g.posOf g.index
  let distance := current_position.manhattan destination
  if distance = 0 then (some Game.ERROR_NOTHING, g)
  else if 2 < distance then (some Game.ERROR_FAR_AWAY, g)
  else if distance = 1 then
    if destination ∉ naive_neighbors current_position g.wall_parts then
      (some Game.ERROR_GHOST, g)
    else (none, (g.setPos g.index destination).next_turn)
  else
    let diff := destination - current_position
    if diff.row = 0 ∨ diff.col = 0 then g.jump_over destination diff
    else g.jump_beside destination

/-! ### Basic facts about `Position` arithmetic and `naive_neighbors` -/

@[simp] theorem Position.add_row (a b : Position) : (a + b).row = a.row + b.row := rfl

@[simp] theorem Position.add_col (a b : Position) : (a + b).col = a.col + b.col := rfl

@[simp] theorem Position.sub_row (a b : Position) : (a - b).row = a.row - b.row := rfl

@[simp] theorem Position.sub_col (a b : Position) : (a - b).col = a.col - b.col := rfl

@[simp] theorem Position.mul_row (a : Position) (n : Int) : (a * n).row = a.row * n := rfl

@[simp] theorem Position.mul_col (a : Position) (n : Int) : (a * n).col = a.col * n := rfl

@[simp] theorem Position.row_mk (r c : Int) : (Position.mk r c).row = r := rfl

@[simp] theorem Position.col_mk (r c : Int) : (Position.mk r c).col = c := rfl

theorem Position.ext_rc {a b : Position} (h1 : a.row = b.row) (h2 : a.col = b.col) :
    a = b := by
  cases a
  cases b
  simp_all

theorem Position.eq_iff {a b : Position} : a = b ↔ a.row = b.row ∧ a.col = b.col :=
  ⟨fun h => by rw [h]; exact ⟨rfl, rfl⟩, fun hh => Position.ext_rc hh.1 hh.2⟩

theorem Position.addComm (a b : Position) : a + b = b + a := by
  refine Position.ext_rc ?_ ?_ <;> simp <;> omega

theorem mem_naive_neighbors {b a : Position} {L : List Position} :
    b ∈ naive_neighbors a L ↔
      ∃ m ∈ MOVES, b = a + m ∧ b.in_grid = true ∧ a + b ∉ L := by
  simp only [naive_neighbors, List.mem_filterMap]
  constructor
  · rintro ⟨m, hm, hsome⟩
    split at hsome
    · rename_i hcond
      obtain rfl : a + m = b := by simpa using hsome
      exact ⟨m, hm, rfl, hcond.1, hcond.2⟩
    · simp at hsome
  · rintro ⟨m, hm, rfl, hg, hw⟩
    exact ⟨m, hm, by simp [hg, hw]⟩

theorem naive_neighbors_in_grid {b a : Position} {L : List Position}
    (h : b ∈ naive_neighbors a L) : b.in_grid = true :=
  (mem_naive_neighbors.1 h).choose_spec.2.2.1

theorem naive_neighbors_length_le (a : Position) (L : List Position) :
    (naive_neighbors a L).length ≤ 4 :=
  le_trans (List.length_filterMap_le _ _) (by simp [MOVES])

theorem neg_mem_MOVES {m : Position} (hm : m ∈ MOVES) :
    (⟨-m.row, -m.col⟩ : Position) ∈ MOVES := by
  simp only [MOVES, List.mem_cons, List.not_mem_nil, or_false] at hm
  rcases hm with rfl | rfl | rfl | rfl <;> decide

theorem naive_neighbors_symm {a b : Position} {L : List Position}
    (ha : a.in_grid = true) (h : b ∈ naive_neighbors a L) :
    a ∈ naive_neighbors b L := by
  rcases mem_naive_neighbors.1 h with ⟨m, hm, rfl, _hg, hw⟩
  refine mem_naive_neighbors.2 ⟨⟨-m.row, -m.col⟩, neg_mem_MOVES hm, ?_, ha, ?_⟩
  · refine Position.ext_rc ?_ ?_ <;> simp
  · have hcomm : (a + m) + a = a + (a + m) := Position.addComm _ _
    rw [hcomm]
    exact hw

/-- If `a` and `b` are at Manhattan distance 1 then `b = a + m` for one
of the four `MOVES`. -/
theorem manhattan_one_mem_MOVES {a b : Position} (h : a.manhattan b = 1) :
    b - a ∈ MOVES ∧ a + (b - a) = b := by
  unfold Position.manhattan at h
  constructor
  · simp only [MOVES, List.mem_cons, List.not_mem_nil, or_false, Position.eq_iff,
      Position.sub_row, Position.sub_col, Position.row_mk, Position.col_mk]
    omega
  · refine Position.ext_rc ?_ ?_ <;> simp

/-! ### The 81 grid cells as a list, and the DFS termination measure -/

def gridList : List Position :=
  (List.range 81).map fun k => ⟨((k / 9 : Nat) : Int), ((k % 9 : Nat) : Int)⟩

theorem gridList_nodup : gridList.Nodup := by decide

theorem mem_gridList {p : Position} (h : p.in_grid = true) : p ∈ gridList := by
  simp only [Position.in_grid, decide_eq_true_eq] at h
  simp only [gridList, List.mem_map, List.mem_range]
  refine ⟨p.row.toNat * 9 + p.col.toNat, by omega, ?_⟩
  have hr : ((p.row.toNat * 9 + p.col.toNat) / 9 : Nat) = p.row.toNat := by omega
  have hc : ((p.row.toNat * 9 + p.col.toNat) % 9 : Nat) = p.col.toNat := by omega
  rw [hr, hc]
  refine Position.ext_rc ?_ ?_ <;> simp <;> omega

/-- Number of grid cells not yet visited. -/
def unvisitedCount (visited : List Position) : Nat :=
  (gridList.filter fun q => decide (q ∉ visited)).length

/-- Termination measure of the DFS loop of `can_exit`. -/
def dfsMeasure (stack visited : List Position) : Nat :=
  5 * unvisitedCount visited + stack.length

theorem length_filter_not_mem_cons {visited : List Position} (l : List Position)
    (hl : l.Nodup) (p : Position) (hmem : p ∈ l) (hnv : p ∉ visited) :
    (l.filter fun q => decide (q ∉ p :: visited)).length + 1 =
      (l.filter fun q => decide (q ∉ visited)).length := by
  induction l with
  | nil => simp at hmem
  | cons a t ih =>
    rcases List.mem_cons.1 hmem with heq | hpt
    · subst heq
      have hat : p ∉ t := (List.nodup_cons.1 hl).1
      have heq2 : (t.filter fun q => decide (q ∉ p :: visited)) =
          t.filter fun q => decide (q ∉ visited) := by
        apply List.filter_congr
        intro q hq
        have hqp : ¬q = p := fun hh => hat (hh ▸ hq)
        simp [hqp]
      simp only [List.filter_cons]
      rw [show (decide (p ∉ p :: visited)) = false by simp,
        show (decide (p ∉ visited)) = true by simpa using hnv, heq2]
      simp
    · have hpa : ¬p = a := by
        rintro rfl
        exact (List.nodup_cons.1 hl).1 hpt
      have ih2 := ih (List.nodup_cons.1 hl).2 hpt
      simp only [List.filter_cons]
      by_cases hav : a ∈ visited
      · rw [show (decide (a ∉ p :: visited)) = false by simp [hav],
          show (decide (a ∉ visited)) = false by simp [hav]]
        exact ih2
      · have hap : ¬a = p := fun hh => hpa hh.symm
        rw [show (decide (a ∉ p :: visited)) = true by simp [hav, hap],
          show (decide (a ∉ visited)) = true by simpa using hav]
        simp only [reduceIte, List.length_cons]
        omega

theorem unvisitedCount_cons {p : Position} {visited : List Position}
    (hg : p.in_grid = true) (hnv : p ∉ visited) :
    unvisitedCount (p :: visited) + 1 = unvisitedCount visited :=
  length_filter_not_mem_cons gridList gridList_nodup p (mem_gridList hg) hnv

theorem unvisitedCount_le (visited : List Position) : unvisitedCount visited ≤ 81 := by
  have := List.length_filter_le (fun q => decide (q ∉ visited)) gridList
  simpa [unvisitedCount] using this


/-! ### Correctness of the DFS of `can_exit` -/

/-- The edge relation of the search: `b` is an open in-grid neighbor of
`a` through the lattice `L`. -/
def Adj (L : List Position) (a b : Position) : Prop := b ∈ naive_neighbors a L

/-- Reachability through open edges. -/
def Reaches (L : List Position) : Position → Position → Prop :=
  Relation.ReflTransGen (Adj L)

/-- `v` has an open neighbor on player `i`'s goal row (this is the test
the DFS applies to each expanded cell). -/
def WinsNbr (i : Fin 2) (L : List Position) (v : Position) : Prop :=
  ∃ n ∈ naive_neighbors v L, PLAYER_HAS_WIN i n = true

/-- What the DFS actually decides: some cell reachable from `start` has
an open neighbor on the goal row. -/
def ExitProp (i : Fin 2) (L : List Position) (start : Position) : Prop :=
  ∃ v, Reaches L start v ∧ WinsNbr i L v

/-- Loop invariant of the DFS: every visited cell has been expanded (no
winning neighbor was found, and each of its neighbors is visited or on
the stack). -/
def DfsInv (i : Fin 2) (L : List Position) (stack visited : List Position) : Prop :=
  ∀ v ∈ visited, ¬WinsNbr i L v ∧ ∀ n ∈ naive_neighbors v L, n ∈ visited ∨ n ∈ stack

theorem dfsAux_sound (i : Fin 2) (L : List Position) :
    ∀ (fuel : Nat) (stack visited : List Position) (start : Position),
      (∀ p ∈ stack, Reaches L start p) →
      dfsAux i L fuel stack visited = true → ExitProp i L start := by
  intro fuel
  induction fuel with
  | zero =>
    intro stack visited start _ h
    simp [dfsAux] at h
  | succ fuel ih =>
    intro stack visited start hst h
    match stack with
    | [] => simp [dfsAux] at h
    | p :: rest =>
      rw [dfsAux] at h
      split at h
      · exact ih rest visited start (fun q hq => hst q (List.mem_cons_of_mem _ hq)) h
      · rename_i hnv
        by_cases hany :
            ((naive_neighbors p L).any fun n => PLAYER_HAS_WIN i n) = true
        · refine ⟨p, hst p (List.mem_cons_self _ _), ?_⟩
          simpa [WinsNbr, List.any_eq_true] using hany
        · rw [if_neg hany] at h
          refine ih _ _ start ?_ h
          intro q hq
          rcases List.mem_append.1 hq with hq | hq
          · have hqn : q ∈ naive_neighbors p L := List.mem_of_mem_filter hq
            exact Relation.ReflTransGen.tail (hst p (List.mem_cons_self _ _)) hqn
          · exact hst q (List.mem_cons_of_mem _ hq)

theorem visited_closed (i : Fin 2) (L : List Position) (visited : List Position)
    (hom : ∀ v ∈ visited, ∀ n ∈ naive_neighbors v L, n ∈ visited)
    (hw : ∀ v ∈ visited, ¬WinsNbr i L v) :
    ∀ w ∈ visited, ∀ u, Reaches L w u → ¬WinsNbr i L u := by
  intro w hwv u hr
  have hu : u ∈ visited := by
    induction hr with
    | refl => exact hwv
    | tail _h1 h2 ih3 => exact hom _ ih3 _ h2
  exact hw u hu

theorem dfsAux_complete (i : Fin 2) (L : List Position) :
    ∀ (fuel : Nat) (stack visited : List Position),
      dfsMeasure stack visited ≤ fuel →
      (∀ p ∈ stack, p.in_grid = true) →
      DfsInv i L stack visited →
      dfsAux i L fuel stack visited = false →
      ∀ w, w ∈ stack ∨ w ∈ visited → ∀ u, Reaches L w u → ¬WinsNbr i L u := by
  intro fuel
  induction fuel with
  | zero =>
    intro stack visited hm _hg hinv _h w hw
    have hstack : stack = [] := by
      unfold dfsMeasure at hm
      cases stack with
      | nil => rfl
      | cons a t => simp at hm
    subst hstack
    have hom : ∀ v ∈ visited, ∀ n ∈ naive_neighbors v L, n ∈ visited := by
      intro v hv n hn
      rcases (hinv v hv).2 n hn with hvis | hnil
      · exact hvis
      · simp at hnil
    rcases hw with hw | hw
    · simp at hw
    · exact visited_closed i L visited hom (fun v hv => (hinv v hv).1) w hw
  | succ fuel ih =>
    intro stack visited hm hg hinv h w hw
    match stack with
    | [] =>
      have hom : ∀ v ∈ visited, ∀ n ∈ naive_neighbors v L, n ∈ visited := by
        intro v hv n hn
        rcases (hinv v hv).2 n hn with hvis | hnil
        · exact hvis
        · simp at hnil
      rcases hw with hw | hw
      · simp at hw
      · exact visited_closed i L visited hom (fun v hv => (hinv v hv).1) w hw
    | p :: rest =>
      rw [dfsAux] at h
      split at h
      · -- p already visited
        rename_i hpv
        have hm2 : dfsMeasure rest visited ≤ fuel := by
          unfold dfsMeasure at hm ⊢
          simp only [List.length_cons] at hm
          omega
        have step := ih rest visited hm2
          (fun q hq => hg q (List.mem_cons_of_mem _ hq))
          (fun v hv => ⟨(hinv v hv).1, fun n hn => by
            rcases (hinv v hv).2 n hn with hvis | hstk
            · exact Or.inl hvis
            · rcases List.mem_cons.1 hstk with rfl | hrest
              · exact Or.inl hpv
              · exact Or.inr hrest⟩) h
        rcases hw with hw | hw
        · rcases List.mem_cons.1 hw with rfl | hrest
          · exact step w (Or.inr hpv)
          · exact step w (Or.inl hrest)
        · exact step w (Or.inr hw)
      · -- p newly expanded
        rename_i hpv
        by_cases hany :
            ((naive_neighbors p L).any fun n => PLAYER_HAS_WIN i n) = true
        · rw [if_pos hany] at h
          simp at h
        · rw [if_neg hany] at h
          have hpw : ¬WinsNbr i L p := by
            intro hwn
            apply hany
            rcases hwn with ⟨n, hn, hwin⟩
            exact List.any_eq_true.2 ⟨n, hn, hwin⟩
          have hpg : p.in_grid = true := hg p (List.mem_cons_self _ _)
          have hcnt : unvisitedCount (p :: visited) + 1 = unvisitedCount visited :=
            unvisitedCount_cons hpg hpv
          have hm2 : dfsMeasure
              ((naive_neighbors p L).filter (fun n => decide (n ∉ p :: visited)) ++ rest)
              (p :: visited) ≤ fuel := by
            unfold dfsMeasure at hm ⊢
            have hlen : ((naive_neighbors p L).filter
                (fun n => decide (n ∉ p :: visited))).length ≤ 4 :=
              le_trans (List.length_filter_le _ _) (naive_neighbors_length_le p L)
            simp only [List.length_append, List.length_cons] at hm ⊢
            omega
          have hg2 : ∀ q ∈ (naive_neighbors p L).filter
              (fun n => decide (n ∉ p :: visited)) ++ rest, q.in_grid = true := by
            intro q hq
            rcases List.mem_append.1 hq with hq | hq
            · exact naive_neighbors_in_grid (List.mem_of_mem_filter hq)
            · exact hg q (List.mem_cons_of_mem _ hq)
          have hinv2 : DfsInv i L
              ((naive_neighbors p L).filter (fun n => decide (n ∉ p :: visited)) ++ rest)
              (p :: visited) := by
            intro v hv
            rcases List.mem_cons.1 hv with rfl | hvv
            · refine ⟨hpw, fun n hn => ?_⟩
              by_cases hnv2 : n ∈ v :: visited
              · exact Or.inl hnv2
              · refine Or.inr (List.mem_append.2 (Or.inl ?_))
                exact List.mem_filter.2 ⟨hn, by simpa using hnv2⟩
            · refine ⟨(hinv v hvv).1, fun n hn => ?_⟩
              rcases (hinv v hvv).2 n hn with hvis | hstk
              · exact Or.inl (List.mem_cons_of_mem _ hvis)
              · rcases List.mem_cons.1 hstk with rfl | hrest
                · exact Or.inl (List.mem_cons_self _ _)
                · exact Or.inr (List.mem_append.2 (Or.inr hrest))
          have step := ih _ _ hm2 hg2 hinv2 h
          rcases hw with hw | hw
          · rcases List.mem_cons.1 hw with rfl | hrest
            · exact step w (Or.inr (List.mem_cons_self _ _))
            · exact step w (Or.inl (List.mem_append.2 (Or.inr hrest)))
          · exact step w (Or.inr (List.mem_cons_of_mem _ hw))

theorem dfsMeasure_start (x : Position) : dfsMeasure [x] [] = 406 := by
  have h81 : unvisitedCount [] = 81 := by decide
  simp [dfsMeasure, h81]

/-- The DFS of `can_exit` decides `ExitProp` (for an in-grid start). -/
theorem can_exit_iff_exitProp (g : Game) (i : Fin 2) (L : List Position)
    (h : (g.posOf i).in_grid = true) :
    g.can_exit i L = true ↔ ExitProp i L (g.posOf i) := by
  constructor
  · intro htrue
    refine dfsAux_sound i L 1000 [g.posOf i] [] (g.posOf i) ?_ htrue
    intro p hp
    rcases List.mem_cons.1 hp with rfl | hnil
    · exact Relation.ReflTransGen.refl
    · simp at hnil
  · intro hex
    by_contra hfalse
    have hf : g.can_exit i L = false := by
      cases hce : g.can_exit i L
      · rfl
      · exact absurd hce hfalse
    obtain ⟨v, hv, hwv⟩ := hex
    refine dfsAux_complete i L 1000 [g.posOf i] [] ?_ ?_ ?_ hf (g.posOf i)
      (Or.inl (List.mem_cons_self _ _)) v hv hwv
    · rw [dfsMeasure_start]
      omega
    · intro p hp
      rcases List.mem_cons.1 hp with rfl | hnil
      · exact h
      · simp at hnil
    · intro v hv
      simp at hv

/-! ### `ExitProp` versus plain goal reachability -/

/-- The spec's reading of `can_exit`: some goal-row cell is reachable
(reflexively) from the start. -/
def GoalReach (i : Fin 2) (L : List Position) (start : Position) : Prop :=
  ∃ t, Reaches L start t ∧ PLAYER_HAS_WIN i t = true

theorem reaches_eq_of_no_nbrs {L : List Position} {start v : Position}
    (hn : naive_neighbors start L = []) (h : Reaches L start v) : v = start := by
  rcases Relation.ReflTransGen.cases_head h with rfl | ⟨b, hb, _⟩
  · rfl
  · unfold Adj at hb
    rw [hn] at hb
    simp at hb

/-- `ExitProp` agrees with goal reachability except when the start is an
isolated cell already on the goal row. -/
theorem exitProp_iff_goalReach (i : Fin 2) (L : List Position) (start : Position)
    (hs : start.in_grid = true) :
    ExitProp i L start ↔
      (GoalReach i L start ∧
        (PLAYER_HAS_WIN i start = true → naive_neighbors start L ≠ [])) := by
  constructor
  · rintro ⟨v, hv, n, hn, hwin⟩
    refine ⟨⟨n, Relation.ReflTransGen.tail hv hn, hwin⟩, ?_⟩
    intro _hws hnil
    have hveq := reaches_eq_of_no_nbrs hnil hv
    subst hveq
    rw [hnil] at hn
    simp at hn
  · rintro ⟨⟨t, ht, hwt⟩, himp⟩
    by_cases hws : PLAYER_HAS_WIN i start = true
    · rcases List.exists_mem_of_ne_nil _ (himp hws) with ⟨n, hn⟩
      exact ⟨n, Relation.ReflTransGen.single hn, start, naive_neighbors_symm hs hn, hws⟩
    · have hts : ¬t = start := fun hh => hws (hh ▸ hwt)
      rcases Relation.ReflTransGen.cases_tail ht with rfl | ⟨b, hb, hbt⟩
      · exact absurd rfl hts
      · exact ⟨b, hb, t, hbt, hwt⟩

theorem can_exit_congr {g g2 : Game} {i : Fin 2} (h : g.posOf i = g2.posOf i)
    (L : List Position) : g.can_exit i L = g2.can_exit i L := by
  unfold Game.can_exit
  rw [h]

/-! ### Component lemmas for the state updates -/

theorem next_turn_pos0 (g : Game) : g.next_turn.pos0 = g.pos0 := by
  unfold Game.next_turn
  split <;> rfl

theorem next_turn_pos1 (g : Game) : g.next_turn.pos1 = g.pos1 := by
  unfold Game.next_turn
  split <;> rfl

theorem next_turn_posOf (g : Game) (i : Fin 2) : g.next_turn.posOf i = g.posOf i := by
  unfold Game.next_turn Game.posOf
  repeat' split
  all_goals rfl

theorem next_turn_wall_parts (g : Game) : g.next_turn.wall_parts = g.wall_parts := by
  unfold Game.next_turn
  split <;> rfl

theorem next_turn_count0 (g : Game) : g.next_turn.count0 = g.count0 := by
  unfold Game.next_turn
  split <;> rfl

theorem next_turn_count1 (g : Game) : g.next_turn.count1 = g.count1 := by
  unfold Game.next_turn
  split <;> rfl

theorem next_turn_countOf (g : Game) (i : Fin 2) : g.next_turn.countOf i = g.countOf i := by
  unfold Game.next_turn Game.countOf
  repeat' split
  all_goals rfl

theorem next_turn_index (g : Game) :
    g.next_turn.index =
      if PLAYER_HAS_WIN g.index (g.posOf g.index) = true then g.index
      else g.index + 1 := by
  unfold Game.next_turn Game.has_winD
  split <;> rfl

theorem setPos_wall_parts (g : Game) (i : Fin 2) (p : Position) :
    (g.setPos i p).wall_parts = g.wall_parts := by
  unfold Game.setPos
  split <;> rfl

theorem setPos_index (g : Game) (i : Fin 2) (p : Position) :
    (g.setPos i p).index = g.index := by
  unfold Game.setPos
  split <;> rfl

theorem setPos_count0 (g : Game) (i : Fin 2) (p : Position) :
    (g.setPos i p).count0 = g.count0 := by
  unfold Game.setPos
  split <;> rfl

theorem setPos_count1 (g : Game) (i : Fin 2) (p : Position) :
    (g.setPos i p).count1 = g.count1 := by
  unfold Game.setPos
  split <;> rfl

theorem setPos_posOf_self (g : Game) (i : Fin 2) (p : Position) :
    (g.setPos i p).posOf i = p := by
  unfold Game.setPos Game.posOf
  split <;> rfl

theorem setPos_posOf_other (g : Game) (i : Fin 2) (p : Position) (j : Fin 2)
    (hij : ¬j = i) : (g.setPos i p).posOf j = g.posOf j := by
  unfold Game.setPos Game.posOf
  fin_cases i <;> fin_cases j <;> simp_all

theorem decCount_posOf (g : Game) (i : Fin 2) (j : Fin 2) :
    (g.decCount i).posOf j = g.posOf j := by
  unfold Game.decCount Game.posOf
  repeat' split
  all_goals rfl

theorem decCount_wall_parts (g : Game) (i : Fin 2) :
    (g.decCount i).wall_parts = g.wall_parts := by
  unfold Game.decCount
  split <;> rfl

theorem decCount_index (g : Game) (i : Fin 2) : (g.decCount i).index = g.index := by
  unfold Game.decCount
  split <;> rfl

theorem decCount_countOf_self (g : Game) (i : Fin 2) :
    (g.decCount i).countOf i = g.countOf i - 1 := by
  unfold Game.decCount Game.countOf
  repeat' split
  all_goals rfl

theorem decCount_countOf_other (g : Game) (i : Fin 2) (j : Fin 2) (hij : ¬j = i) :
    (g.decCount i).countOf j = g.countOf j := by
  unfold Game.decCount Game.countOf
  fin_cases i <;> fin_cases j <;> simp_all

theorem fin2_add_one (i : Fin 2) : i + 1 = 1 - i := by
  fin_cases i <;> decide

theorem fin2_other {i j : Fin 2} (h : ¬j = i) : j = 1 - i := by
  fin_cases i <;> fin_cases j <;> simp_all

/-! ### Shape lemmas for `move_to` and `add_wall` -/

theorem jump_over_split (g : Game) (d diff : Position) :
    g.jump_over d diff = (none, (g.setPos g.index d).next_turn) ∨
      ∃ e, g.jump_over d diff = (some e, g) := by
  unfold Game.jump_over
  dsimp only
  repeat' split
  all_goals first
    | exact Or.inl rfl
    | exact Or.inr ⟨_, rfl⟩

theorem jump_beside_split (g : Game) (d : Position) :
    g.jump_beside d = (none, (g.setPos g.index d).next_turn) ∨
      ∃ e, g.jump_beside d = (some e, g) := by
  unfold Game.jump_beside
  repeat' split
  all_goals first
    | exact Or.inl rfl
    | exact Or.inr ⟨_, rfl⟩

/-- Every run of `move_to` either accepts (moving the current player and
advancing the turn) or rejects leaving the state untouched. -/
theorem move_to_split (g : Game) (d : Position) :
    g.move_to d = (none, (g.setPos g.index d).next_turn) ∨
      ∃ e, g.move_to d = (some e, g) := by
  unfold Game.move_to
  dsimp only
  repeat' split
  all_goals first
    | exact Or.inl rfl
    | exact Or.inr ⟨_, rfl⟩
    | exact jump_over_split g d _
    | exact jump_beside_split g d

/-- Every run of `add_wall` either accepts (committing the candidate
lattice, decrementing the count, advancing the turn) or rejects leaving
the state untouched. -/
theorem add_wall_split (g : Game) (pos : Position) (hv : HV) :
    g.add_wall pos hv = (none,
      Game.next_turn (Game.decCount
        { g with wall_parts := wall_parts_of pos hv ++ g.wall_parts } g.index)) ∨
      ∃ e, g.add_wall pos hv = (some e, g) := by
  unfold Game.add_wall
  dsimp only
  repeat' split
  all_goals first
    | exact Or.inl rfl
    | exact Or.inr ⟨_, rfl⟩

theorem add_wall_success_can_exit (g : Game) (pos : Position) (hv : HV)
    (h : (g.add_wall pos hv).1 = none) :
    g.can_exit 0 (wall_parts_of pos hv ++ g.wall_parts) = true ∧
      g.can_exit 1 (wall_parts_of pos hv ++ g.wall_parts) = true := by
  unfold Game.add_wall at h
  dsimp only at h
  repeat' split at h
  all_goals simp_all

/-! ### An accepted move keeps the mover connected to its old cell -/

theorem jump_over_success_reaches (g : Game) (d diff : Position)
    (hcur : (g.posOf g.index).in_grid = true)
    (h : (g.jump_over d diff).1 = none) :
    Reaches g.wall_parts d (g.posOf g.index) := by
  unfold Game.jump_over at h
  dsimp only at h
  split at h
  · simp at h
  split at h
  · simp at h
  split at h
  · simp at h
  rename_i hn1 hn2
  have hen : g.posOf g.index + diff.fdiv 2 ∈
      naive_neighbors (g.posOf g.index) g.wall_parts := not_not.mp hn1
  have hdn : d ∈ naive_neighbors (g.posOf g.index + diff.fdiv 2) g.wall_parts :=
    not_not.mp hn2
  have heng : (g.posOf g.index + diff.fdiv 2).in_grid = true :=
    naive_neighbors_in_grid hen
  exact Relation.ReflTransGen.head (naive_neighbors_symm heng hdn)
    (Relation.ReflTransGen.single (naive_neighbors_symm hcur hen))

theorem jump_beside_success_reaches (g : Game) (d : Position)
    (hcur : (g.posOf g.index).in_grid = true)
    (h : (g.jump_beside d).1 = none) :
    Reaches g.wall_parts d (g.posOf g.index) := by
  unfold Game.jump_beside at h
  split at h
  · simp at h
  split at h
  · simp at h
  split at h
  · simp at h
  split at h
  · simp at h
  split at h
  · simp at h
  rename_i h5
  rcases List.exists_mem_of_ne_nil _ h5 with ⟨e, he⟩
  unfold Game.diag_enemies5 at he
  rw [List.mem_filter] at he
  obtain ⟨he4, hde⟩ := he
  unfold Game.diag_enemies4 at he4
  rw [List.mem_filter] at he4
  obtain ⟨he3, _hbehind⟩ := he4
  unfold Game.diag_enemies3 at he3
  rw [List.mem_filter] at he3
  obtain ⟨_he2, hclose⟩ := he3
  have hcl : e ∈ naive_neighbors (g.posOf g.index) g.wall_parts := by
    simpa using hclose
  have hdd : d ∈ naive_neighbors e g.wall_parts := by simpa using hde
  have heg : e.in_grid = true := naive_neighbors_in_grid hcl
  exact Relation.ReflTransGen.head (naive_neighbors_symm heg hdd)
    (Relation.ReflTransGen.single (naive_neighbors_symm hcur hcl))

theorem move_to_success_reaches (g : Game) (d : Position)
    (hcur : (g.posOf g.index).in_grid = true)
    (h : (g.move_to d).1 = none) :
    Reaches g.wall_parts d (g.posOf g.index) := by
  unfold Game.move_to at h
  dsimp only at h
  split at h
  · simp at h
  split at h
  · simp at h
  split at h
  · split at h
    · simp at h
    · rename_i hmem
      exact Relation.ReflTransGen.single (naive_neighbors_symm hcur (not_not.mp hmem))
  · split at h
    · exact jump_over_success_reaches g d _ hcur h
    · exact jump_beside_success_reaches g d hcur h

/-! ### Reachable game states and the connectivity invariant -/

/-- One accepted action (within the caller contract of the `assert`s:
the supplied coordinate is in-grid). -/
inductive Step : Game → Game → Prop
  | move (g : Game) (d : Position) (hd : d.in_grid = true) (g2 : Game)
      (h : g.move_to d = (none, g2)) : Step g g2
  | wall (g : Game) (pos : Position) (hv : HV) (hp : pos.in_grid = true) (g2 : Game)
      (h : g.add_wall pos hv = (none, g2)) : Step g g2

/-- Game states reachable from `Game.init` by accepted actions. -/
def Game.Reachable (g : Game) : Prop := Relation.ReflTransGen Step Game.init g

/-- The inductive invariant: both players stand in the grid and both can
exit through the committed lattice. -/
def GoodState (g : Game) : Prop :=
  (∀ i : Fin 2, (g.posOf i).in_grid = true) ∧
    ∀ i : Fin 2, g.can_exit i g.wall_parts = true

theorem goodState_init : GoodState Game.init := ⟨by decide, by decide⟩

theorem withWall_posOf (g : Game) (c : List Position) (i : Fin 2) :
    ({ g with wall_parts := c } : Game).posOf i = g.posOf i := rfl

theorem step_preserves_good {g g2 : Game} (hstep : Step g g2) (hg : GoodState g) :
    GoodState g2 := by
  obtain ⟨hpos, hexit⟩ := hg
  cases hstep with
  | move d hd g2x h =>
    have hshape : g.move_to d = (none, (g.setPos g.index d).next_turn) := by
      rcases move_to_split g d with hs | ⟨e, hs⟩
      · exact hs
      · rw [hs] at h
        simp at h
    rw [hshape] at h
    injection h with _h1 h2
    subst h2
    have hone : (g.move_to d).1 = none := by rw [hshape]
    have hwp : ((g.setPos g.index d).next_turn).wall_parts = g.wall_parts := by
      rw [next_turn_wall_parts, setPos_wall_parts]
    have hposOf : ∀ i : Fin 2, ((g.setPos g.index d).next_turn).posOf i =
        if i = g.index then d else g.posOf i := by
      intro i
      rw [next_turn_posOf]
      by_cases hi : i = g.index
      · rw [if_pos hi, hi, setPos_posOf_self]
      · rw [if_neg hi, setPos_posOf_other g _ _ _ hi]
    constructor
    · intro i
      rw [hposOf i]
      by_cases hi : i = g.index
      · rw [if_pos hi]
        exact hd
      · rw [if_neg hi]
        exact hpos i
    · intro i
      rw [hwp]
      by_cases hi : i = g.index
      · have hpi : ((g.setPos g.index d).next_turn).posOf i = d := by
          rw [hposOf i, if_pos hi]
        rw [can_exit_iff_exitProp _ i g.wall_parts (by rw [hpi]; exact hd), hpi]
        have hold : ExitProp i g.wall_parts (g.posOf i) := by
          rw [← can_exit_iff_exitProp g i g.wall_parts (hpos i)]
          exact hexit i
        obtain ⟨v, hv, hwv⟩ := hold
        refine ⟨v, Relation.ReflTransGen.trans ?_ hv, hwv⟩
        rw [hi]
        exact move_to_success_reaches g d (hi ▸ hpos i) hone
      · rw [@can_exit_congr ((g.setPos g.index d).next_turn) g i
          (by rw [hposOf i, if_neg hi]) g.wall_parts]
        exact hexit i
  | wall pos hv hp g2x h =>
    have hone : (g.add_wall pos hv).1 = none := by rw [h]
    have hshape : g.add_wall pos hv = (none,
        Game.next_turn (Game.decCount
          { g with wall_parts := wall_parts_of pos hv ++ g.wall_parts } g.index)) := by
      rcases add_wall_split g pos hv with hs | ⟨e, hs⟩
      · exact hs
      · rw [hs] at h
        simp at h
    rw [hshape] at h
    injection h with _h1 h2
    subst h2
    obtain ⟨hce0, hce1⟩ := add_wall_success_can_exit g pos hv hone
    have hposOf : ∀ i : Fin 2, (Game.next_turn (Game.decCount
        { g with wall_parts := wall_parts_of pos hv ++ g.wall_parts } g.index)).posOf i =
        g.posOf i := by
      intro i
      rw [next_turn_posOf, decCount_posOf, withWall_posOf]
    have hwp : (Game.next_turn (Game.decCount
        { g with wall_parts := wall_parts_of pos hv ++ g.wall_parts } g.index)).wall_parts =
        wall_parts_of pos hv ++ g.wall_parts := by
      rw [next_turn_wall_parts, decCount_wall_parts]
    constructor
    · intro i
      rw [hposOf i]
      exact hpos i
    · intro i
      rw [hwp, @can_exit_congr (Game.next_turn (Game.decCount
        { g with wall_parts := wall_parts_of pos hv ++ g.wall_parts } g.index)) g i
        (hposOf i) (wall_parts_of pos hv ++ g.wall_parts)]
      fin_cases i
      · exact hce0
      · exact hce1

theorem reachable_goodState {g : Game} (h : g.Reachable) : GoodState g := by
  unfold Game.Reachable at h
  induction h with
  | refl => exact goodState_init
  | tail _h1 h2 ih => exact step_preserves_good h2 ih

/-! ### Frame and acceptance helpers -/

theorem move_to_reject_frame (g : Game) (d : Position)
    (h : ¬(g.move_to d).1 = none) : (g.move_to d).2 = g := by
  rcases move_to_split g d with hs | ⟨e, hs⟩
  · rw [hs] at h
    simp at h
  · rw [hs]

theorem add_wall_reject_frame (g : Game) (pos : Position) (hv : HV)
    (h : ¬(g.add_wall pos hv).1 = none) : (g.add_wall pos hv).2 = g := by
  rcases add_wall_split g pos hv with hs | ⟨e, hs⟩
  · rw [hs] at h
    simp at h
  · rw [hs]

theorem move_to_success_shape (g g2 : Game) (d : Position)
    (h : g.move_to d = (none, g2)) :
    g2 = (g.setPos g.index d).next_turn := by
  rcases move_to_split g d with hs | ⟨e, hs⟩
  · rw [hs] at h
    injection h with _h1 h2
    exact h2.symm
  · rw [hs] at h
    simp at h

theorem add_wall_success_shape (g g2 : Game) (pos : Position) (hv : HV)
    (h : g.add_wall pos hv = (none, g2)) :
    g2 = Game.next_turn (Game.decCount
      { g with wall_parts := wall_parts_of pos hv ++ g.wall_parts } g.index) := by
  rcases add_wall_split g pos hv with hs | ⟨e, hs⟩
  · rw [hs] at h
    injection h with _h1 h2
    exact h2.symm
  · rw [hs] at h
    simp at h

theorem withWall_index (g : Game) (c : List Position) :
    ({ g with wall_parts := c } : Game).index = g.index := rfl

theorem withWall_countOf (g : Game) (c : List Position) (i : Fin 2) :
    ({ g with wall_parts := c } : Game).countOf i = g.countOf i := rfl

theorem withWall_wall_parts (g : Game) (c : List Position) :
    ({ g with wall_parts := c } : Game).wall_parts = c := rfl

theorem decCount_pos0 (g : Game) (i : Fin 2) : (g.decCount i).pos0 = g.pos0 := by
  unfold Game.decCount
  split <;> rfl

theorem decCount_pos1 (g : Game) (i : Fin 2) : (g.decCount i).pos1 = g.pos1 := by
  unfold Game.decCount
  split <;> rfl

theorem fin2_one_sub_ne (i : Fin 2) : ¬(1 - i) = i := by
  fin_cases i <;> decide

/-- A distance-1 move to an open in-grid neighbor is accepted, with no
other precondition. -/
theorem move_to_dist1_accept (g : Game) (d : Position)
    (hd : (g.posOf g.index).manhattan d = 1)
    (hn : d ∈ naive_neighbors (g.posOf g.index) g.wall_parts) :
    g.move_to d = (none, (g.setPos g.index d).next_turn) := by
  unfold Game.move_to
  dsimp only
  rw [hd]
  simp [hn]

/-! ### Claim theorems -/

/-- C1: connectivity invariant.  In every game state reachable from the
initial state by accepted moves and accepted wall placements, `can_exit`
returns `true` for both players against the committed lattice; no
sequence of accepted actions can violate this. -/
theorem C1_connectivity_invariant :
    ∀ g : Game, g.Reachable → ∀ i : Fin 2, g.can_exit i g.wall_parts = true :=
  fun _g h i => (reachable_goodState h).2 i

/-- C1 witness: the invariant, instantiated at the state reached by the
accepted opening move of player 0 to `(7,4)`. -/
theorem C1_witness :
    ((Game.init.move_to ⟨7, 4⟩).2).can_exit 0 ((Game.init.move_to ⟨7, 4⟩).2).wall_parts
        = true ∧
      ((Game.init.move_to ⟨7, 4⟩).2).can_exit 1 ((Game.init.move_to ⟨7, 4⟩).2).wall_parts
        = true :=
  ⟨C1_connectivity_invariant (Game.init.move_to ⟨7, 4⟩).2
      (Relation.ReflTransGen.single
        (Step.move Game.init ⟨7, 4⟩ (by decide) (Game.init.move_to ⟨7, 4⟩).2 (by decide))) 0,
    C1_connectivity_invariant (Game.init.move_to ⟨7, 4⟩).2
      (Relation.ReflTransGen.single
        (Step.move Game.init ⟨7, 4⟩ (by decide) (Game.init.move_to ⟨7, 4⟩).2 (by decide))) 1⟩

/-- C5: atomicity of rejection.  Whenever `move_to` or `add_wall` (called
within the in-grid caller contract) returns a rejection, the returned
state is the full state before the call: positions, wall counts,
committed lattice and current index are all unchanged. -/
theorem C5_atomic_rejection :
    (∀ (g : Game) (d : Position), d.in_grid = true →
      ¬(g.move_to d).1 = none → (g.move_to d).2 = g) ∧
    ∀ (g : Game) (pos : Position) (hv : HV), pos.in_grid = true →
      ¬(g.add_wall pos hv).1 = none → (g.add_wall pos hv).2 = g :=
  ⟨fun g d _hd h => move_to_reject_frame g d h,
    fun g pos hv _hp h => add_wall_reject_frame g pos hv h⟩

/-- C5 witness: a rejected null move (distance 0) and a rejected wall
placement with an exhausted wall count both return the unchanged state. -/
theorem C5_witness :
    (Game.init.move_to ⟨8, 4⟩).2 = Game.init ∧
      (({ Game.init with count0 := 0 } : Game).add_wall ⟨0, 0⟩ HV.h).2 =
        { Game.init with count0 := 0 } :=
  ⟨C5_atomic_rejection.1 Game.init ⟨8, 4⟩ (by decide) (by decide),
    C5_atomic_rejection.2 { Game.init with count0 := 0 } ⟨0, 0⟩ HV.h (by decide) (by decide)⟩

/-- C6: turn progression.  After an accepted action by the player to
act, if that player's (new) position is on their goal row the index is
unchanged; otherwise it becomes `1 - i`. -/
theorem C6_turn_progression :
    (∀ (g g2 : Game) (d : Position), g.move_to d = (none, g2) →
      g2.index = if PLAYER_HAS_WIN g.index (g2.posOf g.index) = true
        then g.index else 1 - g.index) ∧
    ∀ (g g2 : Game) (pos : Position) (hv : HV), g.add_wall pos hv = (none, g2) →
      g2.index = if PLAYER_HAS_WIN g.index (g2.posOf g.index) = true
        then g.index else 1 - g.index := by
  constructor
  · intro g g2 d h
    have hs := move_to_success_shape g g2 d h
    subst hs
    rw [next_turn_index, setPos_index, setPos_posOf_self, next_turn_posOf,
      setPos_posOf_self, fin2_add_one]
  · intro g g2 pos hv h
    have hs := add_wall_success_shape g g2 pos hv h
    subst hs
    rw [next_turn_index, decCount_index, withWall_index, decCount_posOf, withWall_posOf,
      next_turn_posOf, decCount_posOf, withWall_posOf, fin2_add_one]
    exact rfl

/-- C6 witness: the accepted opening move of player 0 (not a winning
move) hands the turn to player 1 via the stated rule. -/
theorem C6_witness :
    ((Game.init.move_to ⟨7, 4⟩).2).index =
      if PLAYER_HAS_WIN Game.init.index
          (((Game.init.move_to ⟨7, 4⟩).2).posOf Game.init.index) = true
      then Game.init.index else 1 - Game.init.index :=
  C6_turn_progression.1 Game.init (Game.init.move_to ⟨7, 4⟩).2 ⟨7, 4⟩ (by decide)

/-- C9: frame property of wall placement.  An accepted placement
decrements exactly the acting player's count by 1 and leaves the other
count and both positions unchanged; a rejected attempt leaves both
counts unchanged. -/
theorem C9_wall_count_frame :
    (∀ (g g2 : Game) (pos : Position) (hv : HV), g.add_wall pos hv = (none, g2) →
      g2.countOf g.index = g.countOf g.index - 1 ∧
        g2.countOf (1 - g.index) = g.countOf (1 - g.index) ∧
        g2.pos0 = g.pos0 ∧ g2.pos1 = g.pos1) ∧
    ∀ (g : Game) (pos : Position) (hv : HV), ¬(g.add_wall pos hv).1 = none →
      (g.add_wall pos hv).2.count0 = g.count0 ∧
        (g.add_wall pos hv).2.count1 = g.count1 := by
  constructor
  · intro g g2 pos hv h
    have hs := add_wall_success_shape g g2 pos hv h
    subst hs
    refine ⟨?_, ?_, ?_, ?_⟩
    · rw [next_turn_countOf, decCount_countOf_self, withWall_countOf]
    · rw [next_turn_countOf, decCount_countOf_other _ _ _ (fin2_one_sub_ne g.index),
        withWall_countOf]
    · rw [next_turn_pos0, decCount_pos0]
    · rw [next_turn_pos1, decCount_pos1]
  · intro g pos hv h
    rw [add_wall_reject_frame g pos hv h]
    exact ⟨rfl, rfl⟩

/-- C9 witness: the accepted wall `h` at `(0,0)` from the initial state
takes player 0 from 10 to 9 walls and changes nothing else of the kind;
the rejected placement with an exhausted count changes no count. -/
theorem C9_witness :
    (((Game.init.add_wall ⟨0, 0⟩ HV.h).2).countOf Game.init.index =
        Game.init.countOf Game.init.index - 1 ∧
      ((Game.init.add_wall ⟨0, 0⟩ HV.h).2).countOf (1 - Game.init.index) =
        Game.init.countOf (1 - Game.init.index) ∧
      ((Game.init.add_wall ⟨0, 0⟩ HV.h).2).pos0 = Game.init.pos0 ∧
      ((Game.init.add_wall ⟨0, 0⟩ HV.h).2).pos1 = Game.init.pos1) ∧
      (({ Game.init with count0 := 0 } : Game).add_wall ⟨0, 0⟩ HV.h).2.count0 =
          ({ Game.init with count0 := 0 } : Game).count0 ∧
        (({ Game.init with count0 := 0 } : Game).add_wall ⟨0, 0⟩ HV.h).2.count1 =
          ({ Game.init with count0 := 0 } : Game).count1 :=
  ⟨C9_wall_count_frame.1 Game.init (Game.init.add_wall ⟨0, 0⟩ HV.h).2 ⟨0, 0⟩ HV.h
      (by decide),
    C9_wall_count_frame.2 { Game.init with count0 := 0 } ⟨0, 0⟩ HV.h (by decide)⟩

/-- C10 (implicit): `move_to` never checks occupancy of the destination.
Any distance-1 move to an open in-grid neighbor is accepted even when
the destination is the other player's current cell, leaving both
players on the same cell. -/
theorem C10_move_onto_occupied :
    ∀ (g : Game) (d : Position),
      (g.posOf g.index).manhattan d = 1 →
      d ∈ naive_neighbors (g.posOf g.index) g.wall_parts →
      d = g.posOf (1 - g.index) →
      (g.move_to d).1 = none ∧
        ((g.move_to d).2).posOf g.index = d ∧
        ((g.move_to d).2).posOf (1 - g.index) = d := by
  intro g d hdist hn hocc
  have hs := move_to_dist1_accept g d hdist hn
  rw [hs]
  refine ⟨rfl, ?_, ?_⟩
  · rw [next_turn_posOf, setPos_posOf_self]
  · rw [next_turn_posOf, setPos_posOf_other g _ _ _ (fin2_one_sub_ne g.index)]
    exact hocc.symm

/-- C10 witness: with the opponent adjacent at `(7,4)`, player 0's move
onto the occupied cell `(7,4)` is accepted and both players end on it. -/
theorem C10_witness :
    (({ Game.init with pos1 := ⟨7, 4⟩ } : Game).move_to ⟨7, 4⟩).1 = none ∧
      ((({ Game.init with pos1 := ⟨7, 4⟩ } : Game).move_to ⟨7, 4⟩).2).posOf
          ({ Game.init with pos1 := ⟨7, 4⟩ } : Game).index = ⟨7, 4⟩ ∧
      ((({ Game.init with pos1 := ⟨7, 4⟩ } : Game).move_to ⟨7, 4⟩).2).posOf
          (1 - ({ Game.init with pos1 := ⟨7, 4⟩ } : Game).index) = ⟨7, 4⟩ :=
  C10_move_onto_occupied { Game.init with pos1 := ⟨7, 4⟩ } ⟨7, 4⟩
    (by decide) (by decide) (by decide)

/-- C7: wall-placement check precedence.  An exhausted wall count
rejects with `ERROR_NO_WALL` regardless of geometry; otherwise any
overlap with the committed lattice rejects with
`ERROR_WALL_INTERSECTION` regardless of connectivity; when both checks
pass the outcome is acceptance or one of the two connectivity
rejections. -/
theorem C7_wall_check_precedence :
    (∀ (g : Game) (pos : Position) (hv : HV), pos.in_grid = true →
      g.countOf g.index = 0 → g.add_wall pos hv = (some Game.ERROR_NO_WALL, g)) ∧
    (∀ (g : Game) (pos : Position) (hv : HV), pos.in_grid = true →
      ¬g.countOf g.index = 0 → (∃ p ∈ wall_parts_of pos hv, p ∈ g.wall_parts) →
      g.add_wall pos hv = (some Game.ERROR_WALL_INTERSECTION, g)) ∧
    ∀ (g : Game) (pos : Position) (hv : HV), pos.in_grid = true →
      ¬g.countOf g.index = 0 → (∀ p ∈ wall_parts_of pos hv, p ∉ g.wall_parts) →
      (g.add_wall pos hv).1 = none ∨
        (g.add_wall pos hv).1 = some Game.ERROR_BLOCK_YOU ∨
        (g.add_wall pos hv).1 = some Game.ERROR_BLOCK_HIM := by
  refine ⟨?_, ?_, ?_⟩
  · intro g pos hv _hp h0
    unfold Game.add_wall
    rw [if_pos h0]
  · intro g pos hv _hp h0 hover
    have hany : ((wall_parts_of pos hv).any fun p => decide (p ∈ g.wall_parts)) = true := by
      rcases hover with ⟨p, hp1, hp2⟩
      exact List.any_eq_true.2 ⟨p, hp1, by simpa using hp2⟩
    unfold Game.add_wall
    dsimp only
    rw [if_neg h0, if_pos hany]
  · intro g pos hv _hp h0 hdisj
    have hany : ¬((wall_parts_of pos hv).any fun p => decide (p ∈ g.wall_parts)) = true := by
      intro hc
      rcases List.any_eq_true.1 hc with ⟨p, hp1, hp2⟩
      exact hdisj p hp1 (by simpa using hp2)
    unfold Game.add_wall
    dsimp only
    rw [if_neg h0, if_neg hany]
    repeat' split
    all_goals first
      | exact Or.inl rfl
      | exact Or.inr (Or.inl rfl)
      | exact Or.inr (Or.inr rfl)

/-- C7 witness: the three clauses at concrete states — exhausted count,
overlapping second wall (after the accepted `h` wall at `(0,0)`), and a
fresh non-overlapping placement. -/
theorem C7_witness :
    ({ Game.init with count0 := 0 } : Game).add_wall ⟨0, 0⟩ HV.h =
        (some Game.ERROR_NO_WALL, { Game.init with count0 := 0 }) ∧
      ((Game.init.add_wall ⟨0, 0⟩ HV.h).2).add_wall ⟨0, 0⟩ HV.v =
        (some Game.ERROR_WALL_INTERSECTION, (Game.init.add_wall ⟨0, 0⟩ HV.h).2) ∧
      ((Game.init.add_wall ⟨4, 4⟩ HV.h).1 = none ∨
        (Game.init.add_wall ⟨4, 4⟩ HV.h).1 = some Game.ERROR_BLOCK_YOU ∨
        (Game.init.add_wall ⟨4, 4⟩ HV.h).1 = some Game.ERROR_BLOCK_HIM) :=
  ⟨C7_wall_check_precedence.1 { Game.init with count0 := 0 } ⟨0, 0⟩ HV.h
      (by decide) (by decide),
    C7_wall_check_precedence.2.1 (Game.init.add_wall ⟨0, 0⟩ HV.h).2 ⟨0, 0⟩ HV.v
      (by decide) (by decide) (by decide),
    C7_wall_check_precedence.2.2 Game.init ⟨4, 4⟩ HV.h
      (by decide) (by decide) (by decide)⟩

/-! ### Diagonal jump conditions (claim C3) -/

theorem jump_beside_success_conditions (g : Game) (d : Position)
    (h : (g.jump_beside d).1 = none) :
    ∃ e ∈ g.players_positions,
      (g.posOf g.index).manhattan e = 1 ∧ e.manhattan d = 1 ∧
        e ∈ naive_neighbors (g.posOf g.index) g.wall_parts ∧
        (¬(g.posOf g.index + (e - g.posOf g.index) * (2 : Int)).in_grid = true ∨
          g.posOf g.index + (e - g.posOf g.index) * (2 : Int) ∉
            naive_neighbors e g.wall_parts) ∧
        d ∈ naive_neighbors e g.wall_parts := by
  unfold Game.jump_beside at h
  split at h
  · simp at h
  split at h
  · simp at h
  split at h
  · simp at h
  split at h
  · simp at h
  split at h
  · simp at h
  rename_i h5
  rcases List.exists_mem_of_ne_nil _ h5 with ⟨e, he⟩
  unfold Game.diag_enemies5 Game.diag_enemies4 Game.diag_enemies3
    Game.diag_enemies2 at he
  simp only [List.mem_filter, decide_eq_true_eq] at he
  obtain ⟨⟨⟨⟨⟨hpp, h1⟩, h2⟩, h3⟩, h4⟩, h5e⟩ := he
  exact ⟨e, hpp, h1, h2, h3, h4, h5e⟩

theorem move_to_diag_eq (g : Game) (d : Position)
    (hr : (d - g.posOf g.index).row.natAbs = 1)
    (hc : (d - g.posOf g.index).col.natAbs = 1) :
    g.move_to d = g.jump_beside d := by
  have hdist : (g.posOf g.index).manhattan d = 2 := by
    unfold Position.manhattan
    simp only [Position.sub_row, Position.sub_col] at hr hc
    omega
  have hrow : ¬(d.row - (g.posOf g.index).row = 0 ∨ d.col - (g.posOf g.index).col = 0) := by
    simp only [Position.sub_row, Position.sub_col] at hr hc
    omega
  unfold Game.move_to
  dsimp only
  rw [hdist]
  simp [hrow]

/-- Scenario B of the spec: player 0 at `(7,4)`, opponent at `(6,4)`, a
committed horizontal wall at cell `(5,3)` whose parts include the fine
slot `(11,8)` directly behind the opponent. -/
def Game.scenarioB : Game :=
  { pos0 := ⟨7, 4⟩, pos1 := ⟨6, 4⟩, wall_parts := [⟨11, 6⟩, ⟨11, 7⟩, ⟨11, 8⟩],
    index := 0, count0 := 10, count1 := 10 }

/-- C3: a diagonal move is accepted only if some adjacent opponent also
adjacent to the destination is reachable from the mover, the cell
directly behind that opponent is off-grid or walled off from the
opponent (the straight jump would be illegal), and the destination is
open from the opponent; and in Scenario B the straight jump to `(5,4)`
is rejected while the diagonals `(6,3)` and `(6,5)` are accepted. -/
theorem C3_diagonal_only_if :
    (∀ (g g2 : Game) (d : Position),
      (d - g.posOf g.index).row.natAbs = 1 → (d - g.posOf g.index).col.natAbs = 1 →
      g.move_to d = (none, g2) →
      ∃ e ∈ g.players_positions,
        (g.posOf g.index).manhattan e = 1 ∧ e.manhattan d = 1 ∧
          e ∈ naive_neighbors (g.posOf g.index) g.wall_parts ∧
          (¬(g.posOf g.index + (e - g.posOf g.index) * (2 : Int)).in_grid = true ∨
            g.posOf g.index + (e - g.posOf g.index) * (2 : Int) ∉
              naive_neighbors e g.wall_parts) ∧
          d ∈ naive_neighbors e g.wall_parts) ∧
      (Game.scenarioB.move_to ⟨5, 4⟩).1 =
          some (Game.ERROR_JUMP ("over") ("no wall behind him/her")) ∧
      (Game.scenarioB.move_to ⟨6, 3⟩).1 = none ∧
      (Game.scenarioB.move_to ⟨6, 5⟩).1 = none := by
  refine ⟨?_, by decide, by decide, by decide⟩
  intro g g2 d hr hc h
  have heq := move_to_diag_eq g d hr hc
  rw [heq] at h
  exact jump_beside_success_conditions g d (by rw [h])

/-- C3 witness: the general clause instantiated at Scenario B's accepted
diagonal move to `(6,3)`. -/
theorem C3_witness :
    ∃ e ∈ Game.scenarioB.players_positions,
      (Game.scenarioB.posOf Game.scenarioB.index).manhattan e = 1 ∧
        e.manhattan ⟨6, 3⟩ = 1 ∧
        e ∈ naive_neighbors (Game.scenarioB.posOf Game.scenarioB.index)
          Game.scenarioB.wall_parts ∧
        (¬(Game.scenarioB.posOf Game.scenarioB.index +
            (e - Game.scenarioB.posOf Game.scenarioB.index) * (2 : Int)).in_grid = true ∨
          Game.scenarioB.posOf Game.scenarioB.index +
            (e - Game.scenarioB.posOf Game.scenarioB.index) * (2 : Int) ∉
              naive_neighbors e Game.scenarioB.wall_parts) ∧
        (⟨6, 3⟩ : Position) ∈ naive_neighbors e Game.scenarioB.wall_parts :=
  C3_diagonal_only_if.1 Game.scenarioB (Game.scenarioB.move_to ⟨6, 3⟩).2 ⟨6, 3⟩
    (by decide) (by decide) (by decide)

/-! ### Claim C2: the spec's wall-part formula versus the code's -/

/-- Primary direction exactly as the spec words it: `(0,1)` if vertical
else `(1,0)`.  (Spec-side definition, for comparison only.) -/
def specPrimary (vertical : Bool) : Position := if vertical then ⟨0, 1⟩ else ⟨1, 0⟩

/-- Secondary direction exactly as the spec words it: `(1,0)` if
vertical else `(0,1)`.  (Spec-side definition, for comparison only.) -/
def specSecondary (vertical : Bool) : Position := if vertical then ⟨1, 0⟩ else ⟨0, 1⟩

/-- The spec's §3 formula for the three occupied fine points:
`2·(r,c) + secondary + n·primary`, `n ∈ {0,1,2}`. -/
def specParts (cell : Position) (vertical : Bool) : List Position :=
  (List.range 3).map fun n =>
    cell * (2 : Int) + specSecondary vertical + specPrimary vertical * (Int.ofNat n)

/-- The code's primary direction: `(1,0)` if vertical else `(0,1)` (the
opposite of the spec formula). -/
def fixedPrimary : HV → Position
  | HV.h => ⟨0, 1⟩
  | HV.v => ⟨1, 0⟩

/-- The code's secondary direction: `(0,1)` if vertical else `(1,0)`. -/
def fixedSecondary : HV → Position
  | HV.h => ⟨1, 0⟩
  | HV.v => ⟨0, 1⟩

theorem wall_parts_of_mem (pos : Position) (hv : HV) (p : Position) :
    p ∈ wall_parts_of pos hv ↔
      ∃ n : Nat, n < 3 ∧
        p = pos * (2 : Int) + fixedSecondary hv + fixedPrimary hv * (Int.ofNat n) := by
  have hmove : (wallMoves hv).1 = fixedPrimary hv ∧
      (wallMoves hv).2 = fixedSecondary hv := by
    cases hv <;> exact ⟨rfl, rfl⟩
  unfold wall_parts_of
  rw [hmove.1, hmove.2]
  constructor
  · intro hmem2
    rcases List.mem_map.1 hmem2 with ⟨n, hn, he⟩
    exact ⟨n, List.mem_range.1 hn, he.symm⟩
  · rintro ⟨n, hn, he⟩
    exact List.mem_map.2 ⟨n, List.mem_range.2 hn, he.symm⟩

/-- C2 counterexample: the vertical wall at cell `(0,0)` commits the
parts `(0,1),(1,1),(2,1)` — the spec formula for vertical predicts
`(1,0),(1,1),(1,2)` instead, so the committed parts are not the
formula's parts. -/
theorem C2_counterexample :
    (Game.init.add_wall ⟨0, 0⟩ HV.v).1 = none ∧
      Game.init.wall_parts = [] ∧
      (⟨0, 1⟩ : Position) ∈ (Game.init.add_wall ⟨0, 0⟩ HV.v).2.wall_parts ∧
      (⟨0, 1⟩ : Position) ∉ specParts ⟨0, 0⟩ true ∧
      (⟨1, 2⟩ : Position) ∈ specParts ⟨0, 0⟩ true ∧
      (⟨1, 2⟩ : Position) ∉ (Game.init.add_wall ⟨0, 0⟩ HV.v).2.wall_parts := by
  decide

/-- C2 (amended): the parts computed and committed by `add_wall` are
`2·(r,c) + secondary + n·primary`, `n ∈ {0,1,2}`, with the orientations
the other way around: primary = `(1,0)` if vertical else `(0,1)`,
secondary = `(0,1)` if vertical else `(1,0)`; an accepted placement
commits exactly the old lattice plus these three parts. -/
theorem C2_wall_parts_amended : ∀ (g g2 : Game) (pos : Position) (hv : HV),
    pos.in_grid = true → g.add_wall pos hv = (none, g2) →
    ∀ p : Position, p ∈ g2.wall_parts ↔
      (p ∈ g.wall_parts ∨ ∃ n : Nat, n < 3 ∧
        p = pos * (2 : Int) + fixedSecondary hv + fixedPrimary hv * (Int.ofNat n)) := by
  intro g g2 pos hv _hp h p
  have hs := add_wall_success_shape g g2 pos hv h
  subst hs
  rw [next_turn_wall_parts, decCount_wall_parts, withWall_wall_parts,
    List.mem_append, wall_parts_of_mem]
  exact or_comm

/-- C2 witness: the amended description instantiated at the accepted
vertical wall at `(0,0)` and the part `(0,1)`. -/
theorem C2_witness :
    (⟨0, 1⟩ : Position) ∈ (Game.init.add_wall ⟨0, 0⟩ HV.v).2.wall_parts ↔
      ((⟨0, 1⟩ : Position) ∈ Game.init.wall_parts ∨ ∃ n : Nat, n < 3 ∧
        (⟨0, 1⟩ : Position) = (⟨0, 0⟩ : Position) * (2 : Int) + fixedSecondary HV.v +
          fixedPrimary HV.v * (Int.ofNat n)) :=
  C2_wall_parts_amended Game.init (Game.init.add_wall ⟨0, 0⟩ HV.v).2 ⟨0, 0⟩ HV.v
    (by decide) (by decide) ⟨0, 1⟩

/-! ### Claim C4: what `can_exit` decides -/

/-- A lattice isolating the cell `(0,4)` from all three of its
neighbors.  (No overlap-free pair of committed walls can produce it,
but it is a legitimate `candidate_lattice` argument.) -/
def isolatedLattice : List Position := [⟨0, 7⟩, ⟨0, 9⟩, ⟨1, 8⟩]

/-- A state whose player 0 stands on their goal row at `(0,4)`. -/
def Game.isolatedWinner : Game :=
  { pos0 := ⟨0, 4⟩, pos1 := ⟨8, 4⟩, wall_parts := [⟨0, 7⟩, ⟨0, 9⟩, ⟨1, 8⟩],
    index := 0, count0 := 10, count1 := 10 }

/-- C4 counterexample: with player 0 already on the goal row but
isolated by the candidate lattice, a goal-row cell (their own) is
reachable, yet `can_exit` returns `false` — the claimed equivalence
fails at this input. -/
theorem C4_counterexample :
    Game.isolatedWinner.can_exit 0 isolatedLattice = false ∧
      (Game.isolatedWinner.posOf 0).in_grid = true ∧
      ∃ t, Reaches isolatedLattice (Game.isolatedWinner.posOf 0) t ∧
        PLAYER_HAS_WIN 0 t = true :=
  ⟨by decide, by decide,
    Game.isolatedWinner.posOf 0, Relation.ReflTransGen.refl, by decide⟩

/-- C4 (amended): the edge relation is exactly as claimed (for cells,
i.e. in-grid coordinates); and `can_exit` returns `true` iff some
goal-row cell is reachable AND, in case the player already stands on
the goal row, their cell has at least one open edge.  (`can_exit` is a
pure function in this model, mirroring the side-effect-free Python
method.) -/
theorem C4_amended :
    (∀ (a b : Position) (L : List Position), a.in_grid = true → a.manhattan b = 1 →
      (b ∈ naive_neighbors a L ↔
        (a.in_grid = true ∧ b.in_grid = true ∧ a + b ∉ L))) ∧
    ∀ (g : Game) (i : Fin 2) (L : List Position), (g.posOf i).in_grid = true →
      (g.can_exit i L = true ↔
        ((∃ t, Reaches L (g.posOf i) t ∧ PLAYER_HAS_WIN i t = true) ∧
          (PLAYER_HAS_WIN i (g.posOf i) = true →
            naive_neighbors (g.posOf i) L ≠ []))) := by
  constructor
  · intro a b L ha hm
    constructor
    · intro hb
      rcases mem_naive_neighbors.1 hb with ⟨m, _hmem, rfl, hg, hw⟩
      exact ⟨ha, hg, hw⟩
    · rintro ⟨_, hbg, hw⟩
      obtain ⟨hmem, hab⟩ := manhattan_one_mem_MOVES hm
      exact mem_naive_neighbors.2 ⟨b - a, hmem, hab.symm, hbg, hw⟩
  · intro g i L hpos
    rw [can_exit_iff_exitProp g i L hpos, exitProp_iff_goalReach i L (g.posOf i) hpos]
    unfold GoalReach
    exact Iff.rfl

/-- C4 witness: the amended equivalence instantiated at the initial
state of player 0 with the empty lattice. -/
theorem C4_witness :
    Game.init.can_exit 0 [] = true ↔
      ((∃ t, Reaches [] (Game.init.posOf 0) t ∧ PLAYER_HAS_WIN 0 t = true) ∧
        (PLAYER_HAS_WIN 0 (Game.init.posOf 0) = true →
          naive_neighbors (Game.init.posOf 0) [] ≠ [])) :=
  C4_amended.2 Game.init 0 [] (by decide)

/-! ### Claim C8: the set of rejection messages -/

/-- Every rejection message any engine call can return: the three plain
move errors, the five `ERROR_JUMP` instances (two `over`, three
`beside`), and the four wall errors. -/
def rejectionMessages : List String :=
  [Game.ERROR_NOTHING, Game.ERROR_FAR_AWAY, Game.ERROR_GHOST,
    Game.ERROR_JUMP ("over") ("no wall\nbetween you and him/her"),
    Game.ERROR_JUMP ("over") ("no wall behind him/her"),
    Game.ERROR_JUMP ("beside") ("no wall\nbetween you and him/her"),
    Game.ERROR_JUMP ("beside") ("a wall behind him/her"),
    Game.ERROR_JUMP ("beside") ("no wall\nbetween him/her and the destination"),
    Game.ERROR_NO_WALL, Game.ERROR_WALL_INTERSECTION,
    Game.ERROR_BLOCK_YOU, Game.ERROR_BLOCK_HIM]

theorem jump_over_msgs (g : Game) (d diff : Position) :
    (g.jump_over d diff).1 = none ∨
      ∃ e ∈ rejectionMessages, (g.jump_over d diff).1 = some e := by
  unfold Game.jump_over
  dsimp only
  repeat' split
  all_goals first
    | exact Or.inl rfl
    | exact Or.inr ⟨_, by simp [rejectionMessages], rfl⟩

theorem jump_beside_msgs (g : Game) (d : Position) :
    (g.jump_beside d).1 = none ∨
      ∃ e ∈ rejectionMessages, (g.jump_beside d).1 = some e := by
  unfold Game.jump_beside
  repeat' split
  all_goals first
    | exact Or.inl rfl
    | exact Or.inr ⟨_, by simp [rejectionMessages], rfl⟩

theorem move_to_msgs (g : Game) (d : Position) :
    (g.move_to d).1 = none ∨ ∃ e ∈ rejectionMessages, (g.move_to d).1 = some e := by
  unfold Game.move_to
  dsimp only
  repeat' split
  all_goals first
    | exact Or.inl rfl
    | exact Or.inr ⟨_, by simp [rejectionMessages], rfl⟩
    | exact jump_over_msgs g d _
    | exact jump_beside_msgs g d

theorem add_wall_msgs (g : Game) (pos : Position) (hv : HV) :
    (g.add_wall pos hv).1 = none ∨
      ∃ e ∈ rejectionMessages, (g.add_wall pos hv).1 = some e := by
  unfold Game.add_wall
  dsimp only
  repeat' split
  all_goals first
    | exact Or.inl rfl
    | exact Or.inr ⟨_, by simp [rejectionMessages], rfl⟩

/-- C8 counterexample: the distance-2 straight move with no opponent at
the midpoint is rejected with `ERROR_FAR_AWAY` — the very same message
(and kind) as a move of distance 3 — so "no opponent there" is not
distinguished from "cannot move that far". -/
theorem C8_counterexample :
    (Game.init.posOf Game.init.index).manhattan ⟨6, 4⟩ = 2 ∧
      Game.init.posOf Game.init.index +
          ((⟨6, 4⟩ : Position) - Game.init.posOf Game.init.index).fdiv 2 ∉
        Game.init.players_positions ∧
      (Game.init.move_to ⟨6, 4⟩).1 = some Game.ERROR_FAR_AWAY ∧
      (Game.init.posOf Game.init.index).manhattan ⟨5, 4⟩ = 3 ∧
      (Game.init.move_to ⟨5, 4⟩).1 = some Game.ERROR_FAR_AWAY := by
  decide

/-- C8 (amended): every rejection of `move_to` or `add_wall` carries one
of the twelve messages of `rejectionMessages`, and those messages are
pairwise distinct — except that the "no opponent at the midpoint"
straight-jump rejection reuses `ERROR_FAR_AWAY`, the same reason as
moves of distance greater than 2 (witnessed concretely below), instead
of a distinct "no opponent there" kind. -/
theorem C8_rejection_enumeration :
    (∀ (g : Game) (d : Position), (g.move_to d).1 = none ∨
      ∃ e ∈ rejectionMessages, (g.move_to d).1 = some e) ∧
    (∀ (g : Game) (pos : Position) (hv : HV), (g.add_wall pos hv).1 = none ∨
      ∃ e ∈ rejectionMessages, (g.add_wall pos hv).1 = some e) ∧
    rejectionMessages.Nodup ∧
    (Game.init.move_to ⟨6, 4⟩).1 = some Game.ERROR_FAR_AWAY ∧
    (Game.init.move_to ⟨5, 4⟩).1 = some Game.ERROR_FAR_AWAY :=
  ⟨move_to_msgs, add_wall_msgs, by decide, by decide, by decide⟩

/-- C8 witness: the enumeration clause instantiated at the rejected
null move from the initial state. -/
theorem C8_witness :
    (Game.init.move_to ⟨8, 4⟩).1 = none ∨
      ∃ e ∈ rejectionMessages, (Game.init.move_to ⟨8, 4⟩).1 = some e :=
  C8_rejection_enumeration.1 Game.init ⟨8, 4⟩
